import Mathlib

set_option maxRecDepth 4000

/-!
Verification development for the grant-tracker pipeline (grant-tracker.py).

The definitions below are a shallow embedding of the acquisition →
extraction → relevance-filtering → state-merge → ranking pipeline of the
source file.  Datetimes are modelled at day granularity by a `Date`
structure ordered lexicographically (all deadlines produced by the code
are midnight datetimes, so comparisons between deadlines and the run time
coincide with date comparisons); the `last_updated` timestamps, which are
only ever compared with each other and with `now - 7 days`, are modelled
as abstract `Nat` ticks with `0` playing the role of `datetime.min`.
Python `strptime` on the two formats used by the code is modelled by
whitespace-chunked parsers over the month-name table, with calendar
validity (including leap years) checked exactly as `datetime` does.
-/

/-! ### Python string containment (the `in` operator) -/

/-- Whether the second list is a prefix of the first. -/
def listStartsWith : List Char → List Char → Bool
  | _, [] => true
  | [], _ :: _ => false
  | a :: as, b :: bs => a == b && listStartsWith as bs

/-- Whether the second list occurs contiguously inside the first. -/
def listContainsSeq : List Char → List Char → Bool
  | [], p => p.isEmpty
  | a :: as, p => listStartsWith (a :: as) p || listContainsSeq as p

/-- Python's substring test: `pyIn needle hay` models `needle in hay`. -/
def pyIn (needle hay : String) : Bool :=
  listContainsSeq hay.toList needle.toList

/-- Specification-side substring predicate: `a` occurs contiguously in `b`. -/
def SubstrP (a b : String) : Prop :=
  ∃ l r : List Char, b.toList = l ++ a.toList ++ r

theorem listStartsWith_iff (l p : List Char) :
    listStartsWith l p = true ↔ ∃ r, l = p ++ r := by
  induction p generalizing l with
  | nil => simp [listStartsWith]
  | cons b bs ih =>
    cases l with
    | nil => simp [listStartsWith]
    | cons a as =>
      simp only [listStartsWith, Bool.and_eq_true, beq_iff_eq, ih]
      constructor
      · rintro ⟨rfl, r, rfl⟩; exact ⟨r, rfl⟩
      · rintro ⟨r, h⟩
        injection h with h1 h2
        exact ⟨h1, r, h2⟩

theorem listContainsSeq_iff (l p : List Char) :
    listContainsSeq l p = true ↔ ∃ l1 l2, l = l1 ++ p ++ l2 := by
  induction l with
  | nil =>
    simp only [listContainsSeq, List.isEmpty_iff]
    constructor
    · rintro rfl; exact ⟨[], [], rfl⟩
    · rintro ⟨l1, l2, h⟩
      rcases List.append_eq_nil.mp h.symm with ⟨h1, h2⟩
      exact (List.append_eq_nil.mp h1).2
  | cons a as ih =>
    simp only [listContainsSeq, Bool.or_eq_true, listStartsWith_iff, ih]
    constructor
    · rintro (⟨r, h⟩ | ⟨l1, l2, h⟩)
      · exact ⟨[], r, by simpa using h⟩
      · exact ⟨a :: l1, l2, by simp [h]⟩
    · rintro ⟨l1, l2, h⟩
      cases l1 with
      | nil => exact Or.inl ⟨l2, by simpa using h⟩
      | cons x xs =>
        injection h with h1 h2
        exact Or.inr ⟨xs, l2, h2⟩

theorem pyIn_iff (a b : String) : pyIn a b = true ↔ SubstrP a b := by
  unfold pyIn SubstrP
  exact listContainsSeq_iff b.toList a.toList

/-! ### Dates -/

/-- A calendar date; deadlines in the pipeline are midnight datetimes, so
day granularity is exact for every comparison the code performs. -/
structure Date where
  year : Nat
  month : Nat
  day : Nat
deriving DecidableEq, Repr

/-- Lexicographic strict order on dates, matching datetime comparison. -/
def Date.ltP (a b : Date) : Prop :=
  a.year < b.year ∨
    (a.year = b.year ∧
      (a.month < b.month ∨ (a.month = b.month ∧ a.day < b.day)))

instance (a b : Date) : Decidable (Date.ltP a b) := by
  unfold Date.ltP; exact inferInstance

/-- Boolean version of the date order, used where the code compares. -/
def dateLtB (a b : Date) : Bool := decide (Date.ltP a b)

/-- Gregorian leap-year test, as `datetime` implements it. -/
def isLeap (y : Nat) : Bool :=
  y % 4 == 0 && (y % 100 != 0 || y % 400 == 0)

/-- Number of days in a month, as `datetime` validates it. -/
def daysInMonth (y m : Nat) : Nat :=
  if m = 2 then (if isLeap y then 29 else 28)
  else if m = 4 ∨ m = 6 ∨ m = 9 ∨ m = 11 then 30
  else 31

/-- Days since 1970-01-01 (civil-calendar algorithm); subtracting two of
these gives exactly the `.days` of the timedelta between the midnight
datetimes. -/
def Date.toDays (dt : Date) : Int :=
  let y : Nat := if dt.month ≤ 2 then dt.year - 1 else dt.year
  let era : Nat := y / 400
  let yoe : Nat := y % 400
  let mp : Nat := (dt.month + 9) % 12
  let doy : Nat := (153 * mp + 2) / 5 + (dt.day - 1)
  let doe : Nat := yoe * 365 + yoe / 4 - yoe / 100 + doy
  (era * 146097 + doe : Int) - 719468

/-! ### strptime on the two formats used by the tracker -/

/-- Value of a digit string (digits already checked by callers). -/
def natOfDigits (cs : List Char) : Nat :=
  cs.foldl (fun n c => 10 * n + (c.toNat - 48)) 0

/-- Python's str.lower on the ASCII strings the tracker handles. -/
def pyLower (s : String) : String := ⟨s.toList.map Char.toLower⟩

/-- Month names recognised by strptime's directive for full month names
(matched case-insensitively, as CPython lowercases both sides). -/
def monthNamesLower : List String :=
  ["january", "february", "march", "april", "may", "june",
   "july", "august", "september", "october", "november", "december"]

/-- Parse a month-name chunk, case-insensitively. -/
def monthFromName (cs : List Char) : Option Nat :=
  (monthNamesLower.findIdx? (fun m => m.toList == cs.map Char.toLower)).map
    (· + 1)

/-- Split into maximal space-free runs. -/
def chunksAux : List Char → List Char → List (List Char)
  | [], cur => [cur.reverse]
  | c :: cs, cur =>
    if c = ' ' then cur.reverse :: chunksAux cs []
    else chunksAux cs (c :: cur)

/-- Split a token on spaces, dropping empty chunks: strptime treats a
space in the format as one-or-more whitespace in the input. -/
def chunksOfToken (s : String) : List (List Char) :=
  (chunksAux s.toList []).filter (fun c => !c.isEmpty)

/-- Parse a day-of-month chunk: one or two digits (value validated
against the month by `mkValidDate`, as `datetime` does). -/
def dayOfChunk (cs : List Char) : Option Nat :=
  if cs ≠ [] ∧ cs.length ≤ 2 ∧ (∀ c ∈ cs, c.isDigit = true) then
    some (natOfDigits cs)
  else none

/-- Parse a four-digit year chunk (strptime's year directive matches
exactly four digits). -/
def yearOfChunk (cs : List Char) : Option Nat :=
  if cs.length = 4 ∧ (∀ c ∈ cs, c.isDigit = true) then
    some (natOfDigits cs)
  else none

/-- Construct a date, enforcing calendar validity of the day as
`datetime(year, month, day)` does. -/
def mkValidDate (y m d : Nat) : Option Date :=
  if 1 ≤ d ∧ d ≤ daysInMonth y m then some ⟨y, m, d⟩ else none

/-- Parse a day chunk immediately followed by the literal comma of the
format "Month Day, Year". -/
def dayCommaChunk (cs : List Char) : Option Nat :=
  match cs.getLast? with
  | some c => if c = ',' then dayOfChunk cs.dropLast else none
  | none => none

/-- strptime with format "Month Day, Year" (the code's first format). -/
def parseFmt1 (s : String) : Option Date :=
  match chunksOfToken s with
  | [ms, ds, ys] =>
    match monthFromName ms, dayCommaChunk ds, yearOfChunk ys with
    | some m, some d, some y => mkValidDate y m d
    | _, _, _ => none
  | _ => none

/-- strptime with format "Month Day Year" (the code's second format). -/
def parseFmt2 (s : String) : Option Date :=
  match chunksOfToken s with
  | [ms, ds, ys] =>
    match monthFromName ms, dayOfChunk ds, yearOfChunk ys with
    | some m, some d, some y => mkValidDate y m d
    | _, _, _ => none
  | _ => none

/-! ### Per-token deadline extraction, one function per source profile -/

/-- NIH page token handling: try "Month Day, Year"; only if that parse
fails, try "Month Day Year"; keep the date only when strictly future.
An unparsable token yields nothing (the exceptions are swallowed). -/
def nihTokenDeadline (now : Date) (tok : String) : Option Date :=
  match parseFmt1 tok with
  | some d => if dateLtB now d then some d else none
  | none =>
    match parseFmt2 tok with
    | some d => if dateLtB now d then some d else none
    | none => none

/-- NSF page token handling: only "Month Day, Year" is attempted; keep
the date only when strictly future; failures are swallowed. -/
def nsfTokenDeadline (now : Date) (tok : String) : Option Date :=
  match parseFmt1 tok with
  | some d => if dateLtB now d then some d else none
  | none => none

/-- Foundation page token handling: only "Month Day, Year" is attempted;
keep the date only when strictly future; failures are swallowed. -/
def foundationTokenDeadline (now : Date) (tok : String) : Option Date :=
  match parseFmt1 tok with
  | some d => if dateLtB now d then some d else none
  | none => none

/-- Deadlines an NIH page yields from its captured tokens. -/
def nihDeadlinesOfTokens (now : Date) (toks : List String) : List Date :=
  toks.filterMap (nihTokenDeadline now)

/-- Deadlines an NSF page yields from its captured tokens. -/
def nsfDeadlinesOfTokens (now : Date) (toks : List String) : List Date :=
  toks.filterMap (nsfTokenDeadline now)

/-- Deadlines a foundation section yields from its captured tokens. -/
def foundationDeadlinesOfTokens (now : Date) (toks : List String) : List Date :=
  toks.filterMap (foundationTokenDeadline now)

/-! ### Amount extraction -/

/-- Parse one captured amount token: strip every comma and dollar sign,
then convert with `int` (which fails on an empty or non-digit remainder,
e.g. when a decimal point was captured). -/
def parseAmountToken (s : String) : Option Nat :=
  let cs := s.toList.filter (fun c => !(c == ',' || c == '$'))
  if cs ≠ [] ∧ (∀ c ∈ cs, c.isDigit = true) then some (natOfDigits cs)
  else none

/-- NIH amount pipeline: keep parsed values in 1,000 ..= 10,000,000. -/
def nihAmountsOfTokens (toks : List String) : List Nat :=
  toks.filterMap (fun t =>
    match parseAmountToken t with
    | some a => if 1000 ≤ a ∧ a ≤ 10000000 then some a else none
    | none => none)

/-- NSF amount pipeline: keep parsed values in 5,000 ..= 5,000,000. -/
def nsfAmountsOfTokens (toks : List String) : List Nat :=
  toks.filterMap (fun t =>
    match parseAmountToken t with
    | some a => if 5000 ≤ a ∧ a ≤ 5000000 then some a else none
    | none => none)

/-- Foundation amount pipeline: keep parsed values in
1,000 ..= 10,000,000. -/
def foundationAmountsOfTokens (toks : List String) : List Nat :=
  toks.filterMap (fun t =>
    match parseAmountToken t with
    | some a => if 1000 ≤ a ∧ a ≤ 10000000 then some a else none
    | none => none)

/-! ### Recurring deadlines -/

/-- Parse a "Month Day" string (the f-string appends the year, so the
string itself must consist of exactly a month-name chunk and a day
chunk for the combined strptime parse to succeed). -/
def monthDayOfString (s : String) : Option (Nat × Nat) :=
  match chunksOfToken s with
  | [ms, ds] =>
    match monthFromName ms, dayOfChunk ds with
    | some m, some d => some (m, d)
    | _, _ => none
  | _ => none

/-- Next occurrence of one recurring "Month Day" entry: parse it in the
current year; if that date is strictly future keep it, otherwise parse
the same month-day in the following year (which can itself fail, e.g.
February 29 rolling into a non-leap year — the whole entry is then
skipped because both parses sit in one try block). -/
def nextOccurrence (now : Date) (s : String) : Option Date :=
  match monthDayOfString s with
  | none => none
  | some (m, d) =>
    match mkValidDate now.year m d with
    | none => none
    | some dt =>
      if dateLtB now dt then some dt else mkValidDate (now.year + 1) m d

/-- generate_recurring_deadlines: one optional date per input string. -/
def generateRecurringDeadlines (dateStrings : List String) (now : Date) :
    List Date :=
  dateStrings.filterMap (nextOccurrence now)

/-! ### Opportunity records and the relevance filter -/

/-- An opportunity record, with the fields the dictionaries built by the
tracker carry.  A missing eligibility key and an empty tag list are
indistinguishable to the code (it reads the key with default `[]`), so
eligibility is a plain list; `lastUpdated = none` models a persisted
record lacking the `last_updated` key. -/
structure Grant where
  title : String
  agency : String
  url : String
  deadlines : List Date
  amounts : List Nat
  description : String
  lastUpdated : Option Nat
  sourceType : String
  eligibility : List String
deriving DecidableEq

/-- The run configuration the filter consults: research areas (already
lowercased by configuration parsing) and the lowercased career stage. -/
structure Profile where
  researchAreas : List String
  careerStage : String

/-- The fixed broad domain keyword list of is_relevant_grant. -/
def neuroKeywords : List String :=
  ["brain", "neural", "neuroscience", "cognitive", "behavior",
   "fmri", "eeg", "imaging", "psychology", "psychiatry", "mental health"]

/-- is_relevant_grant: (area or domain-keyword match on the lowercased
title+description) and (no eligibility tags, or some tag and the career
stage contain one another as substrings — the tags are compared exactly
as stored). -/
def isRelevantGrant (p : Profile) (g : Grant) : Bool :=
  let textToCheck := pyLower (g.title ++ " " ++ g.description)
  let areaMatch := p.researchAreas.any (fun area => pyIn area textToCheck)
  let careerMatch :=
    if g.eligibility.isEmpty then true
    else g.eligibility.any
      (fun stage => pyIn stage p.careerStage || pyIn p.careerStage stage)
  let neuroMatch := neuroKeywords.any (fun k => pyIn k textToCheck)
  (areaMatch || neuroMatch) && careerMatch

/-- The default configuration values of the environment variables. -/
def defaultProfile : Profile :=
  { researchAreas := ["neuroscience", "cognitive science", "brain imaging"],
    careerStage := "postdoc" }

/-! ### The static catalog -/

/-- The fixed catalog of scrape_static_opportunities, before the
relevance filter; `tick` is the run's creation timestamp. -/
def staticGrants (now : Date) (tick : Nat) : List Grant :=
  [{ title := "NIH F31 Predoctoral Fellowship",
     agency := "NIH",
     url := "https://grants.nih.gov/grants/guide/pa-files/PA-23-271.html",
     deadlines :=
       generateRecurringDeadlines ["April 8", "August 8", "December 8"] now,
     amounts := [25000, 30000],
     description :=
       "Predoctoral fellowships for graduate students conducting dissertation research.",
     lastUpdated := some tick,
     sourceType := "static",
     eligibility := ["graduate student", "phd"] },
   { title := "NIH F32 Postdoctoral Fellowship",
     agency := "NIH",
     url := "https://grants.nih.gov/grants/guide/pa-files/PA-23-272.html",
     deadlines :=
       generateRecurringDeadlines ["April 8", "August 8", "December 8"] now,
     amounts := [50000, 60000],
     description := "Postdoctoral fellowships for recent PhD recipients.",
     lastUpdated := some tick,
     sourceType := "static",
     eligibility := ["postdoc", "recent phd"] },
   { title := "NIH K01 Career Development Award",
     agency := "NIH",
     url := "https://grants.nih.gov/grants/guide/pa-files/PA-23-273.html",
     deadlines :=
       generateRecurringDeadlines ["February 12", "June 12", "October 12"] now,
     amounts := [100000, 150000],
     description := "Career development awards for early-career investigators.",
     lastUpdated := some tick,
     sourceType := "static",
     eligibility := ["assistant professor", "early career"] },
   { title := "NSF Graduate Research Fellowship",
     agency := "NSF",
     url := "https://www.nsfgrfp.org/",
     deadlines := [⟨2025, 10, 15⟩],
     amounts := [37000, 46000],
     description :=
       "Fellowship for outstanding graduate students in STEM fields.",
     lastUpdated := some tick,
     sourceType := "static",
     eligibility := ["graduate student", "early graduate"] },
   { title := "Brain & Behavior Research Foundation Young Investigator Grant",
     agency := "Brain & Behavior Research Foundation",
     url := "https://www.bbrfoundation.org/grants-prizes/young-investigator-grants",
     deadlines := [⟨2025, 9, 15⟩],
     amounts := [70000],
     description :=
       "Grants for early-career investigators in brain and behavior research.",
     lastUpdated := some tick,
     sourceType := "static",
     eligibility := ["postdoc", "assistant professor"] },
   { title := "Simons Foundation Autism Research Initiative (SFARI)",
     agency := "Simons Foundation",
     url := "https://www.sfari.org/grant-opportunities/",
     deadlines := generateRecurringDeadlines ["January 15", "July 15"] now,
     amounts := [100000, 300000],
     description := "Research grants focused on autism spectrum disorders.",
     lastUpdated := some tick,
     sourceType := "static",
     eligibility :=
       ["assistant professor", "associate professor", "professor"] }]

/-- scrape_static_opportunities: the catalog entries passing relevance. -/
def scrapeStaticOpportunities (p : Profile) (now : Date) (tick : Nat) :
    List Grant :=
  (staticGrants now tick).filter (isRelevantGrant p)

/-! ### Urgency classification -/

/-- The tier chain of calculate_urgency as a function of days_until. -/
def urgencyFromDays (du : Int) : Nat :=
  if du ≤ 30 then 5
  else if du ≤ 90 then 4
  else if du ≤ 180 then 3
  else if du ≤ 365 then 2
  else 1

/-- min over a nonempty list of dates, keeping the first minimum as
Python's min does. -/
def minDateList (d : Date) (rest : List Date) : Date :=
  rest.foldl (fun m x => if Date.ltP x m then x else m) d

/-- calculate_urgency on a record's deadline list. -/
def calculateUrgency (now : Date) (ds : List Date) : Nat :=
  match ds with
  | [] => 0
  | d :: rest => urgencyFromDays ((minDateList d rest).toDays - now.toDays)

/-! ### The state merge -/

/-- Python's str.strip on the ASCII strings the tracker handles. -/
def pyStrip (s : String) : String :=
  ⟨((s.toList.dropWhile Char.isWhitespace).reverse.dropWhile
      Char.isWhitespace).reverse⟩

/-- Identity key: lowercased-then-stripped title, lowercased agency. -/
def grantKey (g : Grant) : String × String :=
  (pyStrip (pyLower g.title), pyLower g.agency)

/-- Effective timestamp: `last_updated` with `datetime.min` (here 0) as
the default for a missing key. -/
def effLastUpdated (g : Grant) : Nat := g.lastUpdated.getD 0

/-- One step of the deduplication dict: insert the record if its key is
absent, replace the stored record only when strictly newer (position of
an existing key is preserved, as in a Python dict). -/
def updateAssoc :
    List ((String × String) × Grant) → (String × String) → Grant →
      List ((String × String) × Grant)
  | [], k, g => [(k, g)]
  | (k1, g1) :: rest, k, g =>
    if k1 = k then
      (if effLastUpdated g > effLastUpdated g1 then (k, g) else (k1, g1)) :: rest
    else (k1, g1) :: updateAssoc rest k g

/-- The unique_grants dict built by iterating over all records. -/
def mergeAssoc (gs : List Grant) : List ((String × String) × Grant) :=
  gs.foldl (fun acc g => updateAssoc acc (grantKey g) g) []

/-- The merged record list, list(unique_grants.values()). -/
def mergeGrants (gs : List Grant) : List Grant :=
  (mergeAssoc gs).map (fun p => p.2)

/-- The staleness window, 7 days of tick units (seconds). -/
def weekSeconds : Nat := 7 * 86400

/-- Baseline construction at run start: skipped entirely under the
force-refresh flag, otherwise the persisted records strictly newer than
a week before the run. -/
def filterBaseline (existing : List Grant) (nowTick : Nat) (force : Bool) :
    List Grant :=
  if force then []
  else existing.filter (fun g => decide (nowTick - weekSeconds < effLastUpdated g))

/-- The record set run() ends with: baseline, then the static catalog,
then the scraped records, deduplicated by identity key. -/
def runMergedGrants (existing scraped : List Grant) (p : Profile)
    (now : Date) (tick : Nat) (force : Bool) : List Grant :=
  mergeGrants
    (filterBaseline existing tick force ++
      (scrapeStaticOpportunities p now tick ++ scraped))

/-! ### The ranker -/

/-- datetime.max at day granularity, the sort-key default used when a
record has no deadlines key at all. -/
def dateMax : Date := ⟨9999, 12, 31⟩

/-- Sort key of generate_html_website: (urgency, min deadline).  On an
empty deadline list Python's min raises, so the branch below is only
meaningful under the guard in rankGrants; the records built by the
tracker always carry the deadlines key, hence the datetime.max default
of the dict lookup is unreachable and stands in here for the empty
case. -/
def sortKeyOf (now : Date) (g : Grant) : Nat × Date :=
  (calculateUrgency now g.deadlines,
    match g.deadlines with
    | [] => dateMax
    | d :: rest => minDateList d rest)

/-- Strict lexicographic order on sort keys (Python tuple comparison). -/
def keyLt (a b : Nat × Date) : Prop :=
  a.1 < b.1 ∨ (a.1 = b.1 ∧ Date.ltP a.2 b.2)

instance (a b : Nat × Date) : Decidable (keyLt a b) := by
  unfold keyLt; exact inferInstance

/-- Insert into a descending-sorted list, after every element whose key
is not smaller: together with the left fold below this reproduces the
stable descending sort performed by sorted(..., reverse=True). -/
def insDesc (now : Date) : List Grant → Grant → List Grant
  | [], x => [x]
  | y :: ys, x =>
    if keyLt (sortKeyOf now y) (sortKeyOf now x) then x :: y :: ys
    else y :: insDesc now ys x

/-- Stable descending sort by the (urgency, min deadline) key. -/
def sortGrantsDesc (now : Date) (gs : List Grant) : List Grant :=
  gs.foldl (insDesc now) []

/-- The ranking step: sorted(..., key=(urgency, min deadlines),
reverse=True).  A record whose deadline list is empty makes the key
computation raise ValueError (min of an empty sequence), modelled as
`none`. -/
def rankGrants (now : Date) (gs : List Grant) : Option (List Grant) :=
  if gs.all (fun g => !g.deadlines.isEmpty) then
    some (sortGrantsDesc now gs)
  else none

/-! ### Specification-side view of the merge -/

/-- Fold step of "keep the newest, first-seen wins ties" on one group. -/
def combineOpt (o : Option Grant) (g : Grant) : Option Grant :=
  match o with
  | none => some g
  | some b => if effLastUpdated g > effLastUpdated b then some g else some b

/-- The first record of a list attaining the maximal effective
timestamp (the merge contract's survivor, stated independently of the
dict computation). -/
def firstMaxGrant (l : List Grant) : Option Grant := l.foldl combineOpt none

/-- All records of a list sharing identity key k, in original order. -/
def groupOf (k : String × String) (gs : List Grant) : List Grant :=
  gs.filter (fun g => decide (grantKey g = k))

/-- Lookup in the association list representing the dict. -/
def lookupA (k : String × String)
    (l : List ((String × String) × Grant)) : Option Grant :=
  (l.find? (fun p => decide (p.1 = k))).map (fun p => p.2)

theorem lookupA_updateAssoc (acc : List ((String × String) × Grant))
    (k1 k : String × String) (g : Grant) :
    lookupA k (updateAssoc acc k1 g) =
      if k1 = k then combineOpt (lookupA k acc) g else lookupA k acc := by
  induction acc with
  | nil =>
    by_cases h : k1 = k <;>
      simp [updateAssoc, lookupA, List.find?, h, combineOpt]
  | cons p rest ih =>
    obtain ⟨k2, g2⟩ := p
    by_cases h21 : k2 = k1
    · subst h21
      by_cases hk : k2 = k
      · subst hk
        by_cases he : effLastUpdated g > effLastUpdated g2 <;>
          simp [updateAssoc, lookupA, List.find?, he, combineOpt]
      · have h1k : ¬(k2 = k) := hk
        by_cases he : effLastUpdated g > effLastUpdated g2 <;>
          simp [updateAssoc, lookupA, List.find?, he, h1k]
    · by_cases hk : k2 = k
      · subst hk
        have h1k : ¬(k1 = k2) := fun h => h21 h.symm
        simp [updateAssoc, lookupA, List.find?, h21, h1k]
      · simp only [updateAssoc, if_neg h21, lookupA, List.find?,
          decide_eq_false hk, Bool.false_eq_true, if_neg hk]
        simpa [lookupA] using ih

theorem lookupA_foldl (gs : List Grant)
    (acc : List ((String × String) × Grant)) (k : String × String) :
    lookupA k (gs.foldl (fun a g => updateAssoc a (grantKey g) g) acc) =
      (groupOf k gs).foldl combineOpt (lookupA k acc) := by
  induction gs generalizing acc with
  | nil => simp [groupOf]
  | cons g gs ih =>
    by_cases h : grantKey g = k
    · simp only [List.foldl_cons, ih, groupOf, List.filter_cons,
        decide_eq_true h, lookupA_updateAssoc, if_pos h]
      rfl
    · simp only [List.foldl_cons, ih, groupOf, List.filter_cons,
        lookupA_updateAssoc, if_neg h, decide_eq_false h]
      rfl

theorem lookupA_mergeAssoc (gs : List Grant) (k : String × String) :
    lookupA k (mergeAssoc gs) = firstMaxGrant (groupOf k gs) := by
  have := lookupA_foldl gs [] k
  simpa [mergeAssoc, lookupA, firstMaxGrant, List.find?] using this

theorem mem_updateAssoc (acc : List ((String × String) × Grant))
    (k : String × String) (g : Grant)
    (p : (String × String) × Grant) (hp : p ∈ updateAssoc acc k g) :
    p ∈ acc ∨ p = (k, g) := by
  induction acc with
  | nil => simpa [updateAssoc] using hp
  | cons q rest ih =>
    obtain ⟨k1, g1⟩ := q
    by_cases h : k1 = k
    · subst h
      by_cases he : effLastUpdated g > effLastUpdated g1
      · simp [updateAssoc, he] at hp
        rcases hp with h1 | h1
        · exact Or.inr (by simp [h1])
        · exact Or.inl (List.mem_cons_of_mem _ h1)
      · simp [updateAssoc, he] at hp
        rcases hp with h1 | h1
        · exact Or.inl (by simp [h1])
        · exact Or.inl (List.mem_cons_of_mem _ h1)
    · simp [updateAssoc, h] at hp
      rcases hp with h1 | h1
      · exact Or.inl (by simp [h1])
      · rcases ih h1 with h2 | h2
        · exact Or.inl (List.mem_cons_of_mem _ h2)
        · exact Or.inr h2

theorem foldl_updateAssoc_invariant (gs : List Grant) :
    ∀ acc : List ((String × String) × Grant),
      (∀ p ∈ acc, p.1 = grantKey p.2) →
      ∀ p ∈ gs.foldl (fun a g => updateAssoc a (grantKey g) g) acc,
        p.1 = grantKey p.2 ∧ (p.2 ∈ gs ∨ p ∈ acc) := by
  induction gs with
  | nil => intro acc hacc p hp; exact ⟨hacc p hp, Or.inr hp⟩
  | cons g rest ih =>
    intro acc hacc p hp
    simp only [List.foldl_cons] at hp
    have hacc2 : ∀ q ∈ updateAssoc acc (grantKey g) g,
        q.1 = grantKey q.2 := by
      intro q hq
      rcases mem_updateAssoc acc (grantKey g) g q hq with h1 | h1
      · exact hacc q h1
      · subst h1; rfl
    rcases ih (updateAssoc acc (grantKey g) g) hacc2 p hp with ⟨h1, h2⟩
    refine ⟨h1, ?_⟩
    rcases h2 with h3 | h3
    · exact Or.inl (List.mem_cons_of_mem _ h3)
    · rcases mem_updateAssoc acc (grantKey g) g p h3 with h4 | h4
      · exact Or.inr h4
      · subst h4; exact Or.inl (List.mem_cons_self _ _)

/-- Every stored pair's key is the key of its record, and its record was
one of the folded inputs. -/
theorem mergeAssoc_invariant (gs : List Grant) :
    ∀ p ∈ mergeAssoc gs, p.1 = grantKey p.2 ∧ p.2 ∈ gs := by
  intro p hp
  have := foldl_updateAssoc_invariant gs [] (by simp) p hp
  exact ⟨this.1, by simpa using this.2⟩

/-- Every merged record is one of the input records. -/
theorem mem_mergeGrants (gs : List Grant) (s : Grant)
    (hs : s ∈ mergeGrants gs) : s ∈ gs := by
  simp only [mergeGrants, List.mem_map] at hs
  obtain ⟨p, hp, rfl⟩ := hs
  exact (mergeAssoc_invariant gs p hp).2

theorem mem_keys_updateAssoc (acc : List ((String × String) × Grant))
    (k : String × String) (g : Grant) (k2 : String × String) :
    k2 ∈ (updateAssoc acc k g).map Prod.fst ↔
      k2 ∈ acc.map Prod.fst ∨ k2 = k := by
  induction acc with
  | nil => simp [updateAssoc, eq_comm]
  | cons q rest ih =>
    obtain ⟨k1, g1⟩ := q
    by_cases h : k1 = k
    · subst h
      by_cases he : effLastUpdated g > effLastUpdated g1 <;>
        · simp [updateAssoc, he]
          tauto
    · simp [updateAssoc, h, ih]
      tauto

theorem nodup_keys_updateAssoc (acc : List ((String × String) × Grant))
    (k : String × String) (g : Grant)
    (h : (acc.map Prod.fst).Nodup) :
    ((updateAssoc acc k g).map Prod.fst).Nodup := by
  induction acc with
  | nil => simp [updateAssoc]
  | cons q rest ih =>
    obtain ⟨k1, g1⟩ := q
    simp only [List.map_cons, List.nodup_cons] at h
    by_cases hk : k1 = k
    · subst hk
      by_cases he : effLastUpdated g > effLastUpdated g1 <;>
        · simp [updateAssoc, he, List.nodup_cons]
          exact ⟨fun x hx => h.1 (List.mem_map_of_mem Prod.fst hx), h.2⟩
    · simp only [updateAssoc, if_neg hk, List.map_cons, List.nodup_cons]
      refine ⟨?_, ih h.2⟩
      intro hmem
      rcases (mem_keys_updateAssoc rest k g k1).mp hmem with h1 | h1
      · exact h.1 h1
      · exact hk h1

theorem nodup_keys_mergeAssoc (gs : List Grant) :
    ((mergeAssoc gs).map Prod.fst).Nodup := by
  have main : ∀ (gs : List Grant) (acc : List ((String × String) × Grant)),
      (acc.map Prod.fst).Nodup →
      (((gs.foldl (fun a g => updateAssoc a (grantKey g) g) acc)).map
        Prod.fst).Nodup := by
    intro gs
    induction gs with
    | nil => intro acc h; simpa using h
    | cons g rest ih =>
      intro acc h
      simpa using ih _ (nodup_keys_updateAssoc acc (grantKey g) g h)
  simpa [mergeAssoc] using main gs [] (by simp)

/-- With nodup keys, two stored pairs sharing a key coincide. -/
theorem key_inj_of_nodup (l : List ((String × String) × Grant))
    (h : (l.map Prod.fst).Nodup) (p q : (String × String) × Grant)
    (hp : p ∈ l) (hq : q ∈ l) (hk : p.1 = q.1) : p = q := by
  induction l with
  | nil => cases hp
  | cons a rest ih =>
    simp only [List.map_cons, List.nodup_cons] at h
    rcases List.mem_cons.mp hp with h1 | h1 <;>
      rcases List.mem_cons.mp hq with h2 | h2
    · rw [h1, h2]
    · exfalso
      apply h.1
      rw [← h1, hk]
      exact List.mem_map_of_mem Prod.fst h2
    · exfalso
      apply h.1
      rw [← h2, ← hk]
      exact List.mem_map_of_mem Prod.fst h1
    · exact ih h.2 h1 h2

/-- A merged record is found by looking its own key up in the dict. -/
theorem lookupA_of_mem_mergeGrants (gs : List Grant) (s : Grant)
    (hs : s ∈ mergeGrants gs) :
    lookupA (grantKey s) (mergeAssoc gs) = some s := by
  simp only [mergeGrants, List.mem_map] at hs
  obtain ⟨p, hp, hps⟩ := hs
  have hkey : p.1 = grantKey p.2 := (mergeAssoc_invariant gs p hp).1
  have hsome : ((mergeAssoc gs).find?
      (fun q => decide (q.1 = grantKey s))).isSome := by
    rw [List.find?_isSome]
    exact ⟨p, hp, by simp [hkey, hps]⟩
  obtain ⟨q, hq⟩ := Option.isSome_iff_exists.mp hsome
  have hqmem := List.mem_of_find?_eq_some hq
  have hqkey : q.1 = grantKey s := by
    have := List.find?_some hq
    simpa using this
  have : q = p := key_inj_of_nodup (mergeAssoc gs) (nodup_keys_mergeAssoc gs)
    q p hqmem hp (by rw [hqkey, hkey, hps])
  rw [lookupA, hq]
  simp [this, hps]

theorem foldl_combineOpt_ne_none (l : List Grant) (b : Grant) :
    l.foldl combineOpt (some b) ≠ none := by
  induction l generalizing b with
  | nil => simp
  | cons r rest ih =>
    simp only [List.foldl_cons, combineOpt]
    by_cases he : effLastUpdated r > effLastUpdated b <;> simp [he, ih]

theorem foldl_combineOpt_decomp (l : List Grant) (b s : Grant)
    (h : l.foldl combineOpt (some b) = some s) :
    (s = b ∧ ∀ x ∈ l, effLastUpdated x ≤ effLastUpdated b) ∨
      (∃ l1 l2, l = l1 ++ s :: l2 ∧
        effLastUpdated b < effLastUpdated s ∧
        (∀ x ∈ l1, effLastUpdated x < effLastUpdated s) ∧
        (∀ x ∈ l2, effLastUpdated x ≤ effLastUpdated s)) := by
  induction l generalizing b with
  | nil => simp at h; exact Or.inl ⟨h.symm, by simp⟩
  | cons r rest ih =>
    simp only [List.foldl_cons, combineOpt] at h
    by_cases he : effLastUpdated r > effLastUpdated b
    · rw [if_pos he] at h
      rcases ih r h with ⟨rfl, hall⟩ | ⟨l1, l2, heq, hlt, h1, h2⟩
      · exact Or.inr ⟨[], rest, rfl, he, by simp, hall⟩
      · refine Or.inr ⟨r :: l1, l2, by simp [heq], lt_trans he hlt, ?_, h2⟩
        intro x hx
        rcases List.mem_cons.mp hx with h3 | h3
        · rw [h3]; exact hlt
        · exact h1 x h3
    · rw [if_neg he] at h
      push_neg at he
      rcases ih b h with ⟨rfl, hall⟩ | ⟨l1, l2, heq, hlt, h1, h2⟩
      · refine Or.inl ⟨rfl, ?_⟩
        intro x hx
        rcases List.mem_cons.mp hx with h3 | h3
        · rw [h3]; exact he
        · exact hall x h3
      · refine Or.inr ⟨r :: l1, l2, by simp [heq], hlt, ?_, h2⟩
        intro x hx
        rcases List.mem_cons.mp hx with h3 | h3
        · rw [h3]; exact lt_of_le_of_lt he hlt
        · exact h1 x h3

/-- The survivor picked by `firstMaxGrant` is the first element of the
group attaining the maximal effective timestamp: everything before it is
strictly older, everything after it is no newer. -/
theorem firstMaxGrant_decomp (l : List Grant) (s : Grant)
    (h : firstMaxGrant l = some s) :
    ∃ l1 l2, l = l1 ++ s :: l2 ∧
      (∀ x ∈ l1, effLastUpdated x < effLastUpdated s) ∧
      (∀ x ∈ l2, effLastUpdated x ≤ effLastUpdated s) := by
  cases l with
  | nil => simp [firstMaxGrant] at h
  | cons g rest =>
    have h2 : rest.foldl combineOpt (some g) = some s := by
      simpa [firstMaxGrant, combineOpt] using h
    rcases foldl_combineOpt_decomp rest g s h2 with ⟨rfl, hall⟩ |
      ⟨l1, l2, heq, hlt, h1, hle⟩
    · exact ⟨[], rest, rfl, by simp, hall⟩
    · refine ⟨g :: l1, l2, by simp [heq], ?_, hle⟩
      intro x hx
      rcases List.mem_cons.mp hx with h3 | h3
      · rw [h3]; exact hlt
      · exact h1 x h3

theorem lookupA_some_mem (gs : List Grant) (k : String × String) (s : Grant)
    (h : lookupA k (mergeAssoc gs) = some s) :
    s ∈ mergeGrants gs ∧ grantKey s = k := by
  simp only [lookupA, Option.map_eq_some'] at h
  obtain ⟨p, hfind, hps⟩ := h
  have hpmem := List.mem_of_find?_eq_some hfind
  have hpk : p.1 = k := by simpa using List.find?_some hfind
  constructor
  · exact List.mem_map.mpr ⟨p, hpmem, hps⟩
  · rw [← hps, ← (mergeAssoc_invariant gs p hpmem).1, hpk]

/-- Every input key has a survivor in the merged output. -/
theorem mergeGrants_covers (gs : List Grant) (g : Grant) (hg : g ∈ gs) :
    ∃ s ∈ mergeGrants gs, grantKey s = grantKey g := by
  have hgrp : g ∈ groupOf (grantKey g) gs := by simp [groupOf, hg]
  have hne : firstMaxGrant (groupOf (grantKey g) gs) ≠ none := by
    cases hgl : groupOf (grantKey g) gs with
    | nil => rw [hgl] at hgrp; cases hgrp
    | cons a rest =>
      have heq : firstMaxGrant (a :: rest) = rest.foldl combineOpt (some a) := by
        simp [firstMaxGrant, combineOpt]
      rw [heq]
      exact foldl_combineOpt_ne_none rest a
  obtain ⟨s, hs⟩ := Option.ne_none_iff_exists.mp hne
  have hlk : lookupA (grantKey g) (mergeAssoc gs) = some s := by
    rw [lookupA_mergeAssoc]; exact hs.symm
  obtain ⟨hmem, hkey⟩ := lookupA_some_mem gs (grantKey g) s hlk
  exact ⟨s, hmem, hkey⟩

/-- C2.  After the merge all identity keys are pairwise distinct, every
surviving record is the first record of its identity-key group (baseline
first, then fresh, in collection order) attaining the group's maximal
effective `last_updated` — everything earlier in the group is strictly
older and everything later is no newer — and every input key is
represented by a survivor. -/
theorem claimC2_merge_unique_newest_survivor (gs : List Grant) :
    (mergeGrants gs).Pairwise (fun a b => grantKey a ≠ grantKey b) ∧
    (∀ s ∈ mergeGrants gs, ∃ l1 l2,
      groupOf (grantKey s) gs = l1 ++ s :: l2 ∧
      (∀ r ∈ l1, effLastUpdated r < effLastUpdated s) ∧
      (∀ r ∈ l2, effLastUpdated r ≤ effLastUpdated s)) ∧
    (∀ g ∈ gs, ∃ s ∈ mergeGrants gs, grantKey s = grantKey g) := by
  refine ⟨?_, ?_, fun g hg => mergeGrants_covers gs g hg⟩
  · have h1 := nodup_keys_mergeAssoc gs
    have h2 : (mergeAssoc gs).map Prod.fst = (mergeGrants gs).map grantKey := by
      rw [mergeGrants, List.map_map]
      exact List.map_congr_left (fun p hp => (mergeAssoc_invariant gs p hp).1)
    rw [h2] at h1
    simpa [List.Nodup, List.pairwise_map] using h1
  · intro s hs
    have hlk := lookupA_of_mem_mergeGrants gs s hs
    rw [lookupA_mergeAssoc] at hlk
    exact firstMaxGrant_decomp _ s hlk

/-- C5.  Under the force-refresh flag the baseline is empty; otherwise it
is exactly the persisted records whose effective `last_updated` is
strictly inside the trailing 7-day window; and a record outside the
window that is not among the freshly collected records is absent from
the merged output. -/
theorem claimC5_staleness_window (existing fresh : List Grant)
    (nowTick : Nat) (r : Grant) :
    filterBaseline existing nowTick true = [] ∧
    (∀ g, g ∈ filterBaseline existing nowTick false ↔
      g ∈ existing ∧ nowTick - weekSeconds < effLastUpdated g) ∧
    (effLastUpdated r ≤ nowTick - weekSeconds → r ∉ fresh →
      r ∉ mergeGrants (filterBaseline existing nowTick false ++ fresh)) := by
  refine ⟨by simp [filterBaseline], ?_, ?_⟩
  · intro g
    simp [filterBaseline, List.mem_filter]
  · intro h1 h2 hmem
    have hr := mem_mergeGrants _ _ hmem
    rcases List.mem_append.mp hr with h3 | h3
    · simp only [filterBaseline, if_neg (Bool.false_ne_true),
        List.mem_filter, decide_eq_true_eq] at h3
      omega
    · exact h2 h3

/-- Witness for C5 at a concrete stale record. -/
theorem claimC5_witness :
    ((100 : Nat) ≤ 1000000 - weekSeconds) ∧
    ({ title := "Old", agency := "X", url := "", deadlines := [],
       amounts := [], description := "", lastUpdated := some 100,
       sourceType := "x", eligibility := [] } : Grant) ∉
      mergeGrants (filterBaseline
        [{ title := "Old", agency := "X", url := "", deadlines := [],
           amounts := [], description := "", lastUpdated := some 100,
           sourceType := "x", eligibility := [] }] 1000000 false ++ []) := by
  refine ⟨by decide, ?_⟩
  exact (claimC5_staleness_window
    [{ title := "Old", agency := "X", url := "", deadlines := [],
       amounts := [], description := "", lastUpdated := some 100,
       sourceType := "x", eligibility := [] }] [] 1000000
    { title := "Old", agency := "X", url := "", deadlines := [],
      amounts := [], description := "", lastUpdated := some 100,
      sourceType := "x", eligibility := [] }).2.2 (by decide) (by simp)

/-- A persisted record lacking the `last_updated` key. -/
def gMissing : Grant :=
  { title := "A", agency := "X", url := "", deadlines := [], amounts := [],
    description := "", lastUpdated := none, sourceType := "x",
    eligibility := [] }

/-- A colliding record whose `last_updated` key is present but carries
the minimal timestamp. -/
def gMinimal : Grant :=
  { title := "A", agency := "X", url := "u", deadlines := [⟨2026, 1, 1⟩],
    amounts := [], description := "", lastUpdated := some 0,
    sourceType := "x", eligibility := [] }

/-- A colliding record with a later `last_updated` value. -/
def gNewer : Grant :=
  { title := "A", agency := "X", url := "u", deadlines := [⟨2026, 1, 1⟩],
    amounts := [], description := "", lastUpdated := some 5,
    sourceType := "x", eligibility := [] }

/-- C10 counterexample.  A first-seen record lacking `last_updated`
collides with a record that carries the (present) minimal timestamp:
the strictly-greater comparison fails, so the record without the field
survives even though the other record has a `last_updated` value. -/
theorem claimC10_counterexample :
    gMissing.lastUpdated = none ∧ gMinimal.lastUpdated = some 0 ∧
    grantKey gMissing = grantKey gMinimal ∧
    mergeGrants [gMissing, gMinimal] = [gMissing] := by
  refine ⟨rfl, rfl, by decide, by decide⟩

/-- C10 amended.  A record lacking `last_updated` is treated as carrying
the minimal timestamp: it never passes the staleness filter, it loses a
collision to any record whose effective timestamp is strictly greater
than the minimum, and, arriving first, it survives exactly when the
collider's effective timestamp is also minimal (missing or explicitly
the minimum). -/
theorem claimC10_missing_last_updated (existing : List Grant)
    (nowTick : Nat) (force : Bool) (g h : Grant) :
    (g.lastUpdated = none → g ∉ filterBaseline existing nowTick force) ∧
    (g.lastUpdated = none → grantKey g = grantKey h →
      0 < effLastUpdated h → mergeGrants [g, h] = [h]) ∧
    (g.lastUpdated = none → grantKey g = grantKey h →
      effLastUpdated h = 0 → mergeGrants [g, h] = [g]) := by
  refine ⟨?_, ?_, ?_⟩
  · intro hg hmem
    cases force with
    | true => simp [filterBaseline] at hmem
    | false =>
      simp only [filterBaseline, List.mem_filter, decide_eq_true_eq,
        if_neg (Bool.false_ne_true)] at hmem
      have h0 : effLastUpdated g = 0 := by simp [effLastUpdated, hg]
      omega
  · intro hg hk hh
    have h0 : effLastUpdated g = 0 := by simp [effLastUpdated, hg]
    simp [mergeGrants, mergeAssoc, updateAssoc, hk, h0, gt_iff_lt, hh]
  · intro hg hk hh
    have h0 : effLastUpdated g = 0 := by simp [effLastUpdated, hg]
    simp [mergeGrants, mergeAssoc, updateAssoc, hk, h0, hh]

/-- Witness for C10 at concrete records. -/
theorem claimC10_witness :
    gMissing ∉ filterBaseline [gMissing] 1000000 false ∧
    mergeGrants [gMissing, gNewer] = [gNewer] := by
  refine ⟨(claimC10_missing_last_updated [gMissing] 1000000 false
    gMissing gNewer).1 rfl, ?_⟩
  exact (claimC10_missing_last_updated [] 0 false gMissing gNewer).2.1
    rfl (by decide) (by decide)

/-- C3.  Tier 0 exactly on an empty deadline list; otherwise the tier is
determined by days_until = (min deadlines − now).days through the
inclusive boundaries 30/90/180/365, with the stated boundary values
mapping to tiers 5,4,4,3,3,2,2,1. -/
theorem claimC3_urgency_tiers (ds : List Date) (now : Date) :
    (calculateUrgency now ds = 0 ↔ ds = []) ∧
    (∀ d rest, ds = d :: rest →
      (calculateUrgency now ds = 5 ↔
        (minDateList d rest).toDays - now.toDays ≤ 30) ∧
      (calculateUrgency now ds = 4 ↔
        (30 < (minDateList d rest).toDays - now.toDays ∧
          (minDateList d rest).toDays - now.toDays ≤ 90)) ∧
      (calculateUrgency now ds = 3 ↔
        (90 < (minDateList d rest).toDays - now.toDays ∧
          (minDateList d rest).toDays - now.toDays ≤ 180)) ∧
      (calculateUrgency now ds = 2 ↔
        (180 < (minDateList d rest).toDays - now.toDays ∧
          (minDateList d rest).toDays - now.toDays ≤ 365)) ∧
      (calculateUrgency now ds = 1 ↔
        365 < (minDateList d rest).toDays - now.toDays)) ∧
    (urgencyFromDays 30 = 5 ∧ urgencyFromDays 31 = 4 ∧
      urgencyFromDays 90 = 4 ∧ urgencyFromDays 91 = 3 ∧
      urgencyFromDays 180 = 3 ∧ urgencyFromDays 181 = 2 ∧
      urgencyFromDays 365 = 2 ∧ urgencyFromDays 366 = 1) := by
  refine ⟨?_, ?_, by decide⟩
  · cases ds with
    | nil => simp [calculateUrgency]
    | cons d rest =>
      simp only [calculateUrgency, urgencyFromDays]
      constructor
      · intro h
        exfalso
        revert h
        split_ifs <;> exact fun hf => hf
      · intro h
        cases h
  · intro d rest h
    subst h
    simp only [calculateUrgency, urgencyFromDays]
    split_ifs <;> omega

/-- Witness for C3 at a deadline exactly 30 days out. -/
theorem claimC3_witness :
    calculateUrgency ⟨2026, 10, 12⟩ [⟨2026, 11, 11⟩] = 5 :=
  ((claimC3_urgency_tiers [⟨2026, 11, 11⟩] ⟨2026, 10, 12⟩).2.1
    ⟨2026, 11, 11⟩ [] rfl).1.mpr (by decide)

/-! ### C1: which deadlines are validated against the run time -/

theorem futureFilter_some (now d0 d : Date)
    (h : (if dateLtB now d0 then some d0 else none) = some d) :
    Date.ltP now d := by
  by_cases hc : dateLtB now d0
  · rw [if_pos hc] at h
    injection h with h1
    subst h1
    simpa [dateLtB] using hc
  · rw [if_neg hc] at h
    cases h

theorem mkValidDate_some (y m dd : Nat) (dt : Date)
    (h : mkValidDate y m dd = some dt) : dt = ⟨y, m, dd⟩ := by
  unfold mkValidDate at h
  split_ifs at h
  injection h with h1
  exact h1.symm

/-- C1 amended.  Every deadline kept by the per-token extraction of any
scraping profile, and every date produced by the recurrence generator,
is strictly in the future relative to the run time; the pipeline
re-validates nothing else (hardcoded static-catalog dates and
baseline-carried dates pass through unchecked). -/
theorem claimC1_extracted_deadlines_future (now : Date) (tok s : String)
    (d : Date) :
    (nihTokenDeadline now tok = some d → Date.ltP now d) ∧
    (nsfTokenDeadline now tok = some d → Date.ltP now d) ∧
    (foundationTokenDeadline now tok = some d → Date.ltP now d) ∧
    (nextOccurrence now s = some d → Date.ltP now d) := by
  refine ⟨?_, ?_, ?_, ?_⟩
  · intro h
    simp only [nihTokenDeadline] at h
    cases hp : parseFmt1 tok with
    | some d0 => rw [hp] at h; exact futureFilter_some now d0 d h
    | none =>
      rw [hp] at h
      cases hq : parseFmt2 tok with
      | some d0 => rw [hq] at h; exact futureFilter_some now d0 d h
      | none => rw [hq] at h; cases h
  · intro h
    simp only [nsfTokenDeadline] at h
    cases hp : parseFmt1 tok with
    | some d0 => rw [hp] at h; exact futureFilter_some now d0 d h
    | none => rw [hp] at h; cases h
  · intro h
    simp only [foundationTokenDeadline] at h
    cases hp : parseFmt1 tok with
    | some d0 => rw [hp] at h; exact futureFilter_some now d0 d h
    | none => rw [hp] at h; cases h
  · intro h
    cases hm : monthDayOfString s with
    | none => simp [nextOccurrence, hm] at h
    | some md =>
      obtain ⟨m, dd⟩ := md
      cases hv : mkValidDate now.year m dd with
      | none => simp [nextOccurrence, hm, hv] at h
      | some dt =>
        by_cases hc : dateLtB now dt
        · have hd : dt = d := by
            simpa [nextOccurrence, hm, hv, hc] using h
          subst hd
          simpa [dateLtB] using hc
        · have h2 : mkValidDate (now.year + 1) m dd = some d := by
            simpa [nextOccurrence, hm, hv, hc] using h
          have := mkValidDate_some _ _ _ _ h2
          subst this
          exact Or.inl (Nat.lt_succ_self _)

/-- Witness for the C1 theorem at an NIH token and a recurring entry. -/
theorem claimC1_witness :
    Date.ltP ⟨2026, 10, 12⟩ ⟨2199, 4, 8⟩ ∧ Date.ltP ⟨2026, 5, 1⟩ ⟨2027, 4, 8⟩ :=
  ⟨(claimC1_extracted_deadlines_future ⟨2026, 10, 12⟩ "April 8, 2199" ""
      ⟨2199, 4, 8⟩).1 (by decide),
   (claimC1_extracted_deadlines_future ⟨2026, 5, 1⟩ "" "April 8"
      ⟨2027, 4, 8⟩).2.2.2 (by decide)⟩

/-- The static-catalog record that survives the default-profile pipeline
with its hardcoded 2025-09-15 deadline. -/
def bbrfRecord (tick : Nat) : Grant :=
  { title := "Brain & Behavior Research Foundation Young Investigator Grant",
    agency := "Brain & Behavior Research Foundation",
    url := "https://www.bbrfoundation.org/grants-prizes/young-investigator-grants",
    deadlines := [⟨2025, 9, 15⟩],
    amounts := [70000],
    description :=
      "Grants for early-career investigators in brain and behavior research.",
    lastUpdated := some tick,
    sourceType := "static",
    eligibility := ["postdoc", "assistant professor"] }

/-- C1 counterexample.  Running the pipeline on 2026-10-12 with the
default profile, an empty baseline and no scraped records, the merged
output is exactly the static catalog record whose hardcoded deadline
2025-09-15 is strictly in the past — a deadline not greater than the
collection time survives into the output. -/
theorem claimC1_counterexample :
    runMergedGrants [] [] defaultProfile ⟨2026, 10, 12⟩ 0 false =
      [bbrfRecord 0] ∧
    (⟨2025, 9, 15⟩ : Date) ∈ (bbrfRecord 0).deadlines ∧
    ¬ Date.ltP ⟨2026, 10, 12⟩ ⟨2025, 9, 15⟩ ∧
    Date.ltP ⟨2025, 9, 15⟩ ⟨2026, 10, 12⟩ := by
  refine ⟨by decide, by decide, by decide, by decide⟩

/-- C9.  Every amount surviving a profile's token pipeline lies in that
profile's bound range: 1,000..10,000,000 for the NIH and foundation
profiles, 5,000..5,000,000 for the NSF profile. -/
theorem claimC9_amount_bounds (toks : List String) (a : Nat) :
    (a ∈ nihAmountsOfTokens toks → 1000 ≤ a ∧ a ≤ 10000000) ∧
    (a ∈ nsfAmountsOfTokens toks → 5000 ≤ a ∧ a ≤ 5000000) ∧
    (a ∈ foundationAmountsOfTokens toks → 1000 ≤ a ∧ a ≤ 10000000) := by
  refine ⟨?_, ?_, ?_⟩ <;>
    · intro h
      simp only [nihAmountsOfTokens, nsfAmountsOfTokens,
        foundationAmountsOfTokens, List.mem_filterMap] at h
      obtain ⟨t, ht, hf⟩ := h
      cases hp : parseAmountToken t with
      | none => simp [hp] at hf
      | some v =>
        simp only [hp] at hf
        split_ifs at hf with hb
        injection hf with h1
        subst h1
        exact hb

/-- Witness for C9 at the token "50,000". -/
theorem claimC9_witness :
    ((1000 : Nat) ≤ 50000 ∧ (50000 : Nat) ≤ 10000000) ∧
    ((5000 : Nat) ≤ 50000 ∧ (50000 : Nat) ≤ 5000000) :=
  ⟨(claimC9_amount_bounds ["50,000"] 50000).1 (by decide),
   (claimC9_amount_bounds ["50,000"] 50000).2.1 (by decide)⟩

/-- C6 amended.  The NIH profile attempts "Month Day, Year" and, only on
its failure, "Month Day Year"; the NSF and foundation profiles attempt
only "Month Day, Year"; in every profile a token failing the attempted
format(s) contributes nothing and raises no error. -/
theorem claimC6_parse_formats (now : Date) (tok : String)
    (toks : List String) (d : Date) :
    (parseFmt1 tok = some d →
      nihTokenDeadline now tok = (if dateLtB now d then some d else none) ∧
      nsfTokenDeadline now tok = (if dateLtB now d then some d else none) ∧
      foundationTokenDeadline now tok =
        (if dateLtB now d then some d else none)) ∧
    (parseFmt1 tok = none → parseFmt2 tok = some d →
      nihTokenDeadline now tok = (if dateLtB now d then some d else none) ∧
      nsfTokenDeadline now tok = none ∧
      foundationTokenDeadline now tok = none) ∧
    (parseFmt1 tok = none → parseFmt2 tok = none →
      nihDeadlinesOfTokens now (tok :: toks) =
        nihDeadlinesOfTokens now toks) ∧
    (parseFmt1 tok = none →
      nsfDeadlinesOfTokens now (tok :: toks) =
        nsfDeadlinesOfTokens now toks ∧
      foundationDeadlinesOfTokens now (tok :: toks) =
        foundationDeadlinesOfTokens now toks) := by
  refine ⟨?_, ?_, ?_, ?_⟩
  · intro h1
    exact ⟨by simp [nihTokenDeadline, h1],
      by simp [nsfTokenDeadline, h1],
      by simp [foundationTokenDeadline, h1]⟩
  · intro h1 h2
    exact ⟨by simp [nihTokenDeadline, h1, h2],
      by simp [nsfTokenDeadline, h1],
      by simp [foundationTokenDeadline, h1]⟩
  · intro h1 h2
    simp [nihDeadlinesOfTokens, List.filterMap_cons, nihTokenDeadline, h1, h2]
  · intro h1
    exact ⟨by simp [nsfDeadlinesOfTokens, List.filterMap_cons,
        nsfTokenDeadline, h1],
      by simp [foundationDeadlinesOfTokens, List.filterMap_cons,
        foundationTokenDeadline, h1]⟩

/-- Witness for C6: an unparsable token is skipped by each profile. -/
theorem claimC6_witness :
    nihDeadlinesOfTokens ⟨2026, 1, 1⟩ ["garbage"] =
      nihDeadlinesOfTokens ⟨2026, 1, 1⟩ [] ∧
    nsfDeadlinesOfTokens ⟨2026, 1, 1⟩ ["garbage"] =
      nsfDeadlinesOfTokens ⟨2026, 1, 1⟩ [] :=
  ⟨(claimC6_parse_formats ⟨2026, 1, 1⟩ "garbage" [] ⟨0, 0, 0⟩).2.2.1
      (by decide) (by decide),
   ((claimC6_parse_formats ⟨2026, 1, 1⟩ "garbage" [] ⟨0, 0, 0⟩).2.2.2
      (by decide)).1⟩

/-- C6 counterexample.  The token "April 8 2199" parses under the second
format only: the NIH profile keeps it, while the NSF and foundation
profiles — which, contrary to the claim, never attempt the second
format — discard it. -/
theorem claimC6_counterexample :
    parseFmt2 "April 8 2199" = some ⟨2199, 4, 8⟩ ∧
    nihDeadlinesOfTokens ⟨2026, 10, 12⟩ ["April 8 2199"] = [⟨2199, 4, 8⟩] ∧
    nsfDeadlinesOfTokens ⟨2026, 10, 12⟩ ["April 8 2199"] = [] ∧
    foundationDeadlinesOfTokens ⟨2026, 10, 12⟩ ["April 8 2199"] = [] := by
  refine ⟨by decide, by decide, by decide, by decide⟩

/-- C7 amended.  The filter accepts exactly when (an area or domain
keyword occurs in the lowercased title+description) and (no eligibility
tags, or some tag and the configured career stage contain one another as
stored — the tag is not case-normalised, so the bidirectional substring
test is case-sensitive on the tag side). -/
theorem claimC7_relevance_filter (p : Profile) (g : Grant) :
    isRelevantGrant p g = true ↔
      ((∃ a ∈ p.researchAreas,
          SubstrP a (pyLower (g.title ++ " " ++ g.description))) ∨
        (∃ k ∈ neuroKeywords,
          SubstrP k (pyLower (g.title ++ " " ++ g.description)))) ∧
      (g.eligibility = [] ∨
        ∃ t ∈ g.eligibility,
          SubstrP t p.careerStage ∨ SubstrP p.careerStage t) := by
  by_cases he : g.eligibility = []
  · simp [isRelevantGrant, he, List.any_eq_true, pyIn_iff]
  · have hne : g.eligibility.isEmpty = false := by
      simpa [List.isEmpty_iff] using he
    simp [isRelevantGrant, hne, he, List.any_eq_true, pyIn_iff]

/-- The claim's area-matching record whose eligibility tag differs from
the configured career stage only in letter case. -/
def casedGrant : Grant :=
  { title := "Neuroscience Grant", agency := "X", url := "",
    deadlines := [], amounts := [], description := "",
    lastUpdated := none, sourceType := "x", eligibility := ["Postdoc"] }

/-- C7 counterexample.  The record's text contains the configured
research area and the case-insensitive bidirectional substring test on
its single tag succeeds, yet the filter rejects the record: the tag is
compared as stored, so the test is not case-insensitive. -/
theorem claimC7_counterexample :
    isRelevantGrant defaultProfile casedGrant = false ∧
    pyIn "neuroscience"
      (pyLower (casedGrant.title ++ " " ++ casedGrant.description)) = true ∧
    (pyIn (pyLower "Postdoc") defaultProfile.careerStage ||
      pyIn defaultProfile.careerStage (pyLower "Postdoc")) = true := by
  refine ⟨by decide, by decide, by decide⟩

/-- C8 amended.  Per entry: unparsable entries are skipped; a parsable
entry whose current-year date is strictly future yields exactly that
date; otherwise the entry yields the same month-day in the following
year when that date exists there, and nothing at all when it does not
(February 29 rolling into a non-leap year).  The spec's April 8 examples
hold. -/
theorem claimC8_recurrence (s : String) (rest : List String) (now : Date)
    (m dd : Nat) (d : Date) :
    (monthDayOfString s = none →
      generateRecurringDeadlines (s :: rest) now =
        generateRecurringDeadlines rest now) ∧
    (monthDayOfString s = some (m, dd) →
      mkValidDate now.year m dd = some d → Date.ltP now d →
      generateRecurringDeadlines (s :: rest) now =
        d :: generateRecurringDeadlines rest now) ∧
    (monthDayOfString s = some (m, dd) →
      mkValidDate now.year m dd = some d → ¬ Date.ltP now d →
      generateRecurringDeadlines (s :: rest) now =
        (mkValidDate (now.year + 1) m dd).toList ++
          generateRecurringDeadlines rest now) ∧
    (nextOccurrence ⟨2026, 3, 1⟩ "April 8" = some ⟨2026, 4, 8⟩ ∧
      nextOccurrence ⟨2026, 5, 1⟩ "April 8" = some ⟨2027, 4, 8⟩) := by
  refine ⟨?_, ?_, ?_, by decide, by decide⟩
  · intro h
    simp [generateRecurringDeadlines, List.filterMap_cons, nextOccurrence, h]
  · intro h1 h2 h3
    simp [generateRecurringDeadlines, List.filterMap_cons, nextOccurrence,
      h1, h2, dateLtB, h3]
  · intro h1 h2 h3
    cases hv2 : mkValidDate (now.year + 1) m dd with
    | none =>
      simp [generateRecurringDeadlines, List.filterMap_cons, nextOccurrence,
        h1, h2, dateLtB, h3, hv2]
    | some d2 =>
      simp [generateRecurringDeadlines, List.filterMap_cons, nextOccurrence,
        h1, h2, dateLtB, h3, hv2]

/-- Witness for C8: the spec's own first example, via the theorem. -/
theorem claimC8_witness :
    generateRecurringDeadlines ["April 8"] ⟨2026, 3, 1⟩ = [⟨2026, 4, 8⟩] := by
  have h := (claimC8_recurrence "April 8" [] ⟨2026, 3, 1⟩ 4 8
    ⟨2026, 4, 8⟩).2.1 (by decide) (by decide) (by decide)
  simpa [generateRecurringDeadlines] using h

/-- C8 counterexample.  "February 29" is parsable — on 2024-01-01 the
generator itself produces February 29, 2024 — yet on 2024-03-01 the
same entry yields no date at all: the next-year parse fails inside the
same try block and the entry is rejected, not rolled forward. -/
theorem claimC8_counterexample :
    monthDayOfString "February 29" = some (2, 29) ∧
    nextOccurrence ⟨2024, 1, 1⟩ "February 29" = some ⟨2024, 2, 29⟩ ∧
    generateRecurringDeadlines ["February 29"] ⟨2024, 3, 1⟩ = [] := by
  refine ⟨by decide, by decide, by decide⟩

/-! ### C4: order produced by the ranker -/

/-- Specification-side non-strict reverse order on sort keys: the first
key is at least the second, lexicographically. -/
def keyGe (a b : Nat × Date) : Prop :=
  b.1 < a.1 ∨ (b.1 = a.1 ∧ (Date.ltP b.2 a.2 ∨ b.2 = a.2))

theorem not_keyLt_iff (a b : Nat × Date) : ¬ keyLt a b ↔ keyGe a b := by
  obtain ⟨u1, y1, m1, d1⟩ := a
  obtain ⟨u2, y2, m2, d2⟩ := b
  simp only [keyLt, keyGe, Date.ltP, Date.mk.injEq]
  omega

theorem keyGe_of_keyLt (a b : Nat × Date) (h : keyLt a b) : keyGe b a := by
  obtain ⟨u1, y1, m1, d1⟩ := a
  obtain ⟨u2, y2, m2, d2⟩ := b
  simp only [keyLt, keyGe, Date.ltP, Date.mk.injEq] at h ⊢
  omega

theorem keyGe_of_lt_of_ge (a b c : Nat × Date)
    (h1 : keyLt b a) (h2 : keyGe b c) : keyGe a c := by
  obtain ⟨u1, y1, m1, d1⟩ := a
  obtain ⟨u2, y2, m2, d2⟩ := b
  obtain ⟨u3, y3, m3, d3⟩ := c
  simp only [keyLt, keyGe, Date.ltP, Date.mk.injEq] at h1 h2 ⊢
  omega

theorem insDesc_perm (now : Date) (l : List Grant) (x : Grant) :
    (insDesc now l x).Perm (x :: l) := by
  induction l with
  | nil => exact List.Perm.refl _
  | cons y ys ih =>
    by_cases hc : keyLt (sortKeyOf now y) (sortKeyOf now x)
    · rw [insDesc, if_pos hc]
    · rw [insDesc, if_neg hc]
      exact (ih.cons y).trans (List.Perm.swap x y ys)

theorem insDesc_sorted (now : Date) (l : List Grant) (x : Grant)
    (h : l.Pairwise (fun a b => keyGe (sortKeyOf now a) (sortKeyOf now b))) :
    (insDesc now l x).Pairwise
      (fun a b => keyGe (sortKeyOf now a) (sortKeyOf now b)) := by
  induction l with
  | nil => simp [insDesc]
  | cons y ys ih =>
    rcases List.pairwise_cons.mp h with ⟨hy, hys⟩
    by_cases hc : keyLt (sortKeyOf now y) (sortKeyOf now x)
    · rw [insDesc, if_pos hc]
      refine List.pairwise_cons.mpr ⟨?_, h⟩
      intro b hb
      rcases List.mem_cons.mp hb with h1 | h1
      · rw [h1]
        exact keyGe_of_keyLt _ _ hc
      · exact keyGe_of_lt_of_ge _ _ _ hc (hy b h1)
    · rw [insDesc, if_neg hc]
      refine List.pairwise_cons.mpr ⟨?_, ih hys⟩
      intro b hb
      have hb2 := (insDesc_perm now ys x).mem_iff.mp hb
      rcases List.mem_cons.mp hb2 with h1 | h1
      · rw [h1]
        exact (not_keyLt_iff _ _).mp hc
      · exact hy b h1

theorem sortGrantsDesc_perm_sorted (now : Date) (gs : List Grant) :
    (sortGrantsDesc now gs).Perm gs ∧
      (sortGrantsDesc now gs).Pairwise
        (fun a b => keyGe (sortKeyOf now a) (sortKeyOf now b)) := by
  have main : ∀ (gs acc : List Grant),
      acc.Pairwise (fun a b => keyGe (sortKeyOf now a) (sortKeyOf now b)) →
      (gs.foldl (insDesc now) acc).Perm (gs ++ acc) ∧
        (gs.foldl (insDesc now) acc).Pairwise
          (fun a b => keyGe (sortKeyOf now a) (sortKeyOf now b)) := by
    intro gs
    induction gs with
    | nil => intro acc h; exact ⟨by simp, h⟩
    | cons g rest ih =>
      intro acc h
      have hstep := ih (insDesc now acc g) (insDesc_sorted now acc g h)
      refine ⟨?_, hstep.2⟩
      have h1 : (rest ++ insDesc now acc g).Perm (rest ++ g :: acc) :=
        List.Perm.append_left rest (insDesc_perm now acc g)
      have h2 : (rest ++ g :: acc).Perm (g :: (rest ++ acc)) :=
        List.perm_middle
      simpa using (hstep.1.trans h1).trans h2
  have := main gs [] (List.Pairwise.nil)
  exact ⟨by simpa [sortGrantsDesc] using this.1,
    by simpa [sortGrantsDesc] using this.2⟩

/-- C4 amended.  When every record has at least one deadline the ranker
returns the records sorted so that each earlier record's
(urgency, min-deadline) key is lexicographically at least each later
record's key — i.e. urgency descending and, within equal urgency,
nearest deadline DESCENDING (sorted with reverse=True reverses both
components); a record with an empty deadline list makes the sort key
raise, so no ordering is produced at all. -/
theorem claimC4_rank_order (now : Date) (gs : List Grant) :
    (rankGrants now gs = none ↔ ∃ g ∈ gs, g.deadlines = []) ∧
    (∀ l, rankGrants now gs = some l →
      l.Perm gs ∧
      l.Pairwise (fun a b => keyGe (sortKeyOf now a) (sortKeyOf now b))) := by
  constructor
  · by_cases hall : gs.all (fun g => !g.deadlines.isEmpty)
    · simp only [rankGrants, if_pos hall]
      simp only [List.all_eq_true] at hall
      constructor
      · intro h; cases h
      · rintro ⟨g, hg, hge⟩
        have := hall g hg
        rw [hge] at this
        simp at this
    · simp only [rankGrants, if_neg hall]
      constructor
      · intro _
        simp only [List.all_eq_true] at hall
        push_neg at hall
        obtain ⟨g, hg, hge⟩ := hall
        refine ⟨g, hg, ?_⟩
        simpa [List.isEmpty_iff] using hge
      · intro _; trivial
  · intro l hl
    simp only [rankGrants] at hl
    split_ifs at hl
    injection hl with h1
    subst h1
    exact sortGrantsDesc_perm_sorted now gs

/-- Two records of equal urgency used by the C4 theorems. -/
def gEarly : Grant :=
  { title := "Early", agency := "X", url := "",
    deadlines := [⟨2026, 10, 22⟩], amounts := [], description := "",
    lastUpdated := none, sourceType := "x", eligibility := [] }

/-- The equal-urgency record with the later nearest deadline. -/
def gLate : Grant :=
  { title := "Late", agency := "Y", url := "",
    deadlines := [⟨2026, 11, 1⟩], amounts := [], description := "",
    lastUpdated := none, sourceType := "x", eligibility := [] }

/-- C4 counterexample.  Two records of equal urgency tier: the code
places the record with the LATER nearest deadline first, so within an
equal tier the order is descending by nearest deadline, not ascending
as the claim states. -/
theorem claimC4_counterexample :
    rankGrants ⟨2026, 10, 12⟩ [gEarly, gLate] = some [gLate, gEarly] ∧
    calculateUrgency ⟨2026, 10, 12⟩ gEarly.deadlines =
      calculateUrgency ⟨2026, 10, 12⟩ gLate.deadlines ∧
    Date.ltP (⟨2026, 10, 22⟩ : Date) ⟨2026, 11, 1⟩ := by
  refine ⟨by decide, by decide, by decide⟩

/-- Witness for C4 at the same two records. -/
theorem claimC4_witness :
    List.Perm [gLate, gEarly] [gEarly, gLate] ∧
    List.Pairwise (fun a b =>
      keyGe (sortKeyOf ⟨2026, 10, 12⟩ a) (sortKeyOf ⟨2026, 10, 12⟩ b))
      [gLate, gEarly] :=
  (claimC4_rank_order ⟨2026, 10, 12⟩ [gEarly, gLate]).2
    [gLate, gEarly] (by decide)

/-- Witness for C2 at a concrete two-record collision. -/
theorem claimC2_witness :
    ∃ l1 l2,
      groupOf (grantKey gNewer) [gMissing, gNewer] = l1 ++ gNewer :: l2 ∧
      (∀ r ∈ l1, effLastUpdated r < effLastUpdated gNewer) ∧
      (∀ r ∈ l2, effLastUpdated r ≤ effLastUpdated gNewer) :=
  (claimC2_merge_unique_newest_survivor [gMissing, gNewer]).2.1 gNewer
    (by decide)

/-- Witness for C7 at the surviving static record. -/
theorem claimC7_witness :
    isRelevantGrant defaultProfile (bbrfRecord 0) = true :=
  (claimC7_relevance_filter defaultProfile (bbrfRecord 0)).mpr
    ⟨Or.inr ⟨"brain", by decide, (pyIn_iff _ _).mp (by decide)⟩,
     Or.inr ⟨"postdoc", by decide, Or.inl ((pyIn_iff _ _).mp (by decide))⟩⟩
